import Mathlib

/-!
Verification of the WebSocketPixelGame repository.

Server side (server/index.ts, class GameServer): a registry mapping client
ids to connection data, a broadcast fan-out, and a message handler for
`player_joined` / `position` messages.  The repository contains two
generations of the server file; `handleMessage` below embeds the current
one (the variant that sends `game_state` after the first `player_joined`),
and `handleMessageV1` embeds the older variant whose `position` case
performs a `typeof === 'number'` payload check.

Client side (src/lib/websocket.ts, class GameWebSocket; src/hooks): the
reconnection controller, the position throttler, the movement clamping and
the remote-player interpolation step.

JavaScript numbers in server payloads are modelled by `JsVal`, which
separates finite numbers (as rationals) from `NaN`, `±Infinity` and
non-number values, because the server stores and relays payload values
without arithmetic.  Client-side coordinates, where the code does real
arithmetic, are modelled as rationals.
-/

/-- A JavaScript value as it can appear in a `position` payload field:
a finite number, `NaN`, `±Infinity`, a string, or `undefined`. -/
inductive JsVal where
  | num (q : ℚ)
  | nan
  | posInf
  | negInf
  | str (s : String)
  | undef
deriving DecidableEq, Repr

/-- The JavaScript test `typeof v === 'number'`: `NaN` and `±Infinity`
are of type number, so they pass this check. -/
def typeofNumber : JsVal → Bool
  | .num _ => true
  | .nan => true
  | .posInf => true
  | .negInf => true
  | .str _ => false
  | .undef => false

/-- `Number.isFinite`: only finite numbers qualify. -/
def JsVal.isFinite : JsVal → Bool
  | .num _ => true
  | _ => false

/-- The player payload stored by the server (`{ id, name, color, x, y }`). -/
structure PlayerData where
  id : String
  name : String
  color : String
  x : JsVal
  y : JsVal
deriving DecidableEq, Repr

/-- Server-side record for one connection (`interface ClientData`):
the transport handle is reduced to its open/closed state, and
`playerData` is set only after the connection's first `player_joined`. -/
structure ClientData where
  wsOpen : Bool
  playerData : Option PlayerData
deriving DecidableEq, Repr

/-- The wire vocabulary of the server (`type GameMessage`). -/
inductive ServerMessage where
  | position (playerId : String) (x y : JsVal)
  | player_joined (payload : PlayerData)
  | player_left (playerId : String)
  | game_state (players : List PlayerData)
deriving DecidableEq, Repr

/-- `Map.prototype.get`, on a JavaScript `Map` represented as an
insertion-ordered association list. -/
def jsMapGet {α : Type} (m : List (String × α)) (k : String) : Option α :=
  (m.find? (fun e => e.1 == k)).map (·.2)

/-- `Map.prototype.set`: overwrite in place if the key is present,
append at the end otherwise. -/
def jsMapSet {α : Type} (m : List (String × α)) (k : String) (v : α) :
    List (String × α) :=
  if m.any (fun e => e.1 == k) then
    m.map (fun e => if e.1 == k then (k, v) else e)
  else
    m ++ [(k, v)]

/-- `Map.prototype.delete`. -/
def jsMapDelete {α : Type} (m : List (String × α)) (k : String) :
    List (String × α) :=
  m.filter (fun e => !(e.1 == k))

/-- The server's connection registry (`private clients: Map<string, ClientData>`). -/
abbrev Registry := List (String × ClientData)

/-- `GameServer.broadcast`: send the message to every client whose id
differs from `excludeClientId` and whose socket is open.  The result is
the list of (recipient id, message) pairs, in registry iteration order. -/
def broadcast (clients : Registry) (message : ServerMessage)
    (excludeClientId : Option String) : List (String × ServerMessage) :=
  (clients.filter (fun e =>
      (match excludeClientId with
       | some ex => !(e.1 == ex)
       | none => true) && e.2.wsOpen)).map (fun e => (e.1, message))

/-- The list of players of currently-Active connections:
`Array.from(this.clients.values()).filter(c => c.playerData).map(c => c.playerData!)`. -/
def activePlayers (clients : Registry) : List PlayerData :=
  clients.filterMap (fun e => e.2.playerData)

/-- `GameServer.handleConnection` (current variant): store the connection
without player data; nothing is sent until the client's `player_joined`. -/
def handleConnection (clients : Registry) (clientId : String) : Registry :=
  jsMapSet clients clientId { wsOpen := true, playerData := none }

/-- The server's `ws.on('close')` handler: delete the connection from the
registry, then broadcast `player_left` to everyone else. -/
def serverHandleClose (clients : Registry) (clientId : String) :
    Registry × List (String × ServerMessage) :=
  let clients' := jsMapDelete clients clientId
  (clients', broadcast clients' (.player_left clientId) (some clientId))

/-- `GameServer.handleMessage` (current variant).  Returns the updated
registry together with the list of (recipient, message) sends it performs.
On `player_joined`: store the payload as the sender's `playerData`, send
`game_state` with every Active player's data to the sender alone, then
broadcast the join to everyone else.  On `position`: if the sender is
Active, update its stored coordinates and broadcast; otherwise ignore. -/
def handleMessage (clients : Registry) (senderId : String) (m : ServerMessage) :
    Registry × List (String × ServerMessage) :=
  match jsMapGet clients senderId with
  | none => (clients, [])
  | some client =>
    match m with
    | .player_joined p =>
        let clients' := jsMapSet clients senderId { client with playerData := some p }
        let allPlayers := activePlayers clients'
        (clients',
         (senderId, .game_state allPlayers) :: broadcast clients' m (some senderId))
    | .position _ x y =>
        match client.playerData with
        | some pd =>
            let clients' := jsMapSet clients senderId
              { client with playerData := some { pd with x := x, y := y } }
            (clients', broadcast clients' m (some senderId))
        | none => (clients, [])
    | _ => (clients, [])

/-- `GameServer.handleMessage`, older variant.  Its `position` case keeps
only a `typeof === 'number'` check on `x` and `y`; when that passes it
updates the sender's stored coordinates (when the sender is Active) and
broadcasts the message unconditionally. -/
def handleMessageV1 (clients : Registry) (senderId : String) (m : ServerMessage) :
    Registry × List (String × ServerMessage) :=
  match m with
  | .position _ x y =>
      if typeofNumber x && typeofNumber y then
        let clients' :=
          match jsMapGet clients senderId with
          | some client =>
              match client.playerData with
              | some pd =>
                  jsMapSet clients senderId
                    { client with playerData := some { pd with x := x, y := y } }
              | none => clients
          | none => clients
        (clients', broadcast clients' m (some senderId))
      else (clients, [])
  | .player_joined p =>
      match jsMapGet clients senderId with
      | some client =>
          let clients' := jsMapSet clients senderId { client with playerData := some p }
          (clients', broadcast clients' m (some senderId))
      | none => (clients, [])
  | _ => (clients, [])

/-!
Client side.  `Player` is the client's participant record
(src/types/game.ts), with the interpolation targets of the client-side
mirror.  `GameWebSocket`'s mutable fields that the claims depend on are
collected in `GameWebSocketState`.
-/

/-- The client's participant record (`interface Player`), including the
optional interpolation targets `targetX?`, `targetY?`. -/
structure Player where
  id : String
  name : String
  x : ℚ
  y : ℚ
  color : String
  targetX : Option ℚ := none
  targetY : Option ℚ := none
deriving DecidableEq, Repr

/-- The client-side wire vocabulary (`type WebSocketMessage`), with the
payload shapes the client actually sends and handles. -/
inductive ClientMessage where
  | position (playerId : String) (x y : ℚ)
  | player_joined (payload : Player)
  | player_left (playerId : String)
  | game_state (players : List Player)
deriving DecidableEq, Repr

/-- The lifecycle events the client can fire (`type WsEvent`):
`connected` and `disconnected` are the only kinds that exist. -/
inductive WsEvent where
  | connected
  | disconnected
deriving DecidableEq, Repr

/-- `private maxReconnectAttempts = 5`. -/
def maxReconnectAttempts : ℕ := 5

/-- `private reconnectTimeout = 1000` (milliseconds). -/
def reconnectTimeout : ℕ := 1000

/-- The mutable fields of `class GameWebSocket` that the reconnection and
queueing claims are about. -/
structure GameWebSocketState where
  reconnectAttempts : ℕ
  isConnecting : Bool
  messageQueue : List ClientMessage
  positionBuffer : List (String × (ℚ × ℚ))
deriving DecidableEq, Repr

/-- The `while (this.messageQueue.length > 0) { shift; send }` loop of the
`onopen` handler: returns the messages sent, in shift (FIFO) order, and the
queue left behind. -/
def flushQueue : List ClientMessage → List ClientMessage × List ClientMessage
  | [] => ([], [])
  | msg :: rest =>
      let r := flushQueue rest
      (msg :: r.1, r.2)

/-- The `ws.onopen` handler of `GameWebSocket.connect` (current variant):
clear `isConnecting`, fire `connected`, send a `player_joined` message with
the full local `Player`, then drain the queued messages in FIFO order.
The reconnection counter is not touched.  Returns the new state, the
messages sent, and the events fired. -/
def handleOpen (player : Player) (s : GameWebSocketState) :
    GameWebSocketState × List ClientMessage × List WsEvent :=
  let flushed := flushQueue s.messageQueue
  ({ s with isConnecting := false, messageQueue := flushed.2 },
   ClientMessage.player_joined player :: flushed.1,
   [WsEvent.connected])

/-- `GameWebSocket.attemptReconnect` (current variant): while the counter
is below `maxReconnectAttempts`, increment it and schedule a retry after
`reconnectTimeout * attempts` milliseconds (returned as `some delay`);
once the cap is reached, do nothing at all. -/
def attemptReconnect (s : GameWebSocketState) : GameWebSocketState × Option ℕ :=
  if s.reconnectAttempts < maxReconnectAttempts then
    ({ s with reconnectAttempts := s.reconnectAttempts + 1 },
     some (reconnectTimeout * (s.reconnectAttempts + 1)))
  else (s, none)

/-- The `ws.onclose` handler: clear `isConnecting`, fire `disconnected`,
then try to reconnect.  Returns the new state, the scheduled retry delay
(if any), and the events fired. -/
def clientHandleClose (s : GameWebSocketState) :
    GameWebSocketState × Option ℕ × List WsEvent :=
  let r := attemptReconnect { s with isConnecting := false }
  (r.1, r.2, [WsEvent.disconnected])

/-- A maximal cascade of connection failures: every connection attempt
fails and triggers the `onclose` handler again, until no retry is
scheduled.  Collects the scheduled delays and every event fired.  `fuel`
dominates the number of closes (the cap plus one suffices). -/
def failureCascadeAux : ℕ → GameWebSocketState → List ℕ × List WsEvent
  | 0, _ => ([], [])
  | fuel + 1, s =>
      match clientHandleClose s with
      | (s', some d, evs) =>
          let rest := failureCascadeAux fuel s'
          (d :: rest.1, evs ++ rest.2)
      | (_, none, evs) => ([], evs)

/-- The failure cascade started from a given state, with enough fuel to
run to exhaustion of the retry budget. -/
def failureCascade (s : GameWebSocketState) : List ℕ × List WsEvent :=
  failureCascadeAux (maxReconnectAttempts + 1) s

/-- `GameWebSocket.sendPosition` (the buffering part): write the latest
coordinates for this id into the single-slot buffer, overwriting any
unsent value. -/
def sendPosition (buffer : List (String × (ℚ × ℚ))) (playerId : String)
    (x y : ℚ) : List (String × (ℚ × ℚ)) :=
  jsMapSet buffer playerId (x, y)

/-- The position-flush timer tick (the `setInterval` callback installed by
`sendPosition`): when the socket is not open, keep the buffer; otherwise
serialize one `position` message per buffered id and, if there is at least
one, send them all and clear the buffer. -/
def positionUpdateTick (wsOpen : Bool) (buffer : List (String × (ℚ × ℚ))) :
    List ClientMessage × List (String × (ℚ × ℚ)) :=
  if !wsOpen then ([], buffer)
  else
    let positionMessages := buffer.map (fun e => ClientMessage.position e.1 e.2.1 e.2.2)
    if positionMessages.length > 0 then (positionMessages, []) else ([], buffer)

/-- Test that a client message is a `position` update for a given id. -/
def isPositionFor (id : String) : ClientMessage → Bool
  | .position pid _ _ => pid == id
  | _ => false

/-!
Movement and interpolation (src/hooks/useMovement.ts and the local branch
of handlePlayerMove in useGameState.ts).
-/

/-- The game configuration (`interface GameConfig`). -/
structure GameConfig where
  fieldWidth : ℚ
  fieldHeight : ℚ
  playerSize : ℚ
  moveSpeed : ℚ
deriving DecidableEq, Repr

/-- The directional input flags. -/
structure Movement where
  up : Bool
  down : Bool
  left : Bool
  right : Bool
deriving DecidableEq, Repr

/-- The local-player movement step shared by the `gameLoop` local branch
and `handlePlayerMove`: apply each pressed direction in source order,
clamping with `Math.max(0, ...)` and
`Math.min(fieldSize - playerSize, ...)` per axis. -/
def applyMovement (cfg : GameConfig) (mv : Movement) (x y : ℚ) : ℚ × ℚ :=
  let y1 := if mv.up then max 0 (y - cfg.moveSpeed) else y
  let y2 := if mv.down then min (cfg.fieldHeight - cfg.playerSize) (y1 + cfg.moveSpeed) else y1
  let x1 := if mv.left then max 0 (x - cfg.moveSpeed) else x
  let x2 := if mv.right then min (cfg.fieldWidth - cfg.playerSize) (x1 + cfg.moveSpeed) else x1
  (x2, y2)

/-- `const LERP_FACTOR = 0.2`. -/
def LERP_FACTOR : ℚ := 0.2

/-- `const lerp = (start, end, t) => start * (1 - t) + end * t`. -/
def lerp (start stop t : ℚ) : ℚ := start * (1 - t) + stop * t

/-- The remote branch of the `gameLoop` in `useMovement`: read the target
(`targetX ?? x`), snap exactly to it when within `0.1` on both axes, and
otherwise move by `lerp` with `LERP_FACTOR` on each axis. -/
def interpolateRemote (p : Player) : Player :=
  let targetX := p.targetX.getD p.x
  let targetY := p.targetY.getD p.y
  if |p.x - targetX| < 0.1 ∧ |p.y - targetY| < 0.1 then
    if p.x ≠ targetX ∨ p.y ≠ targetY then { p with x := targetX, y := targetY }
    else p
  else
    { p with x := lerp p.x targetX LERP_FACTOR, y := lerp p.y targetY LERP_FACTOR }

/-- Squared distance of a player's rendered position to a target point. -/
def distSqToTarget (tx ty : ℚ) (p : Player) : ℚ :=
  (p.x - tx) ^ 2 + (p.y - ty) ^ 2

/-- The `player_joined` case of `handleWsMessage` in the current
`useGameState`: ignore the join when it is the local player's id or when
the id is already present in the mirror, otherwise append the new player
with its targets initialised to its position. -/
def handlePlayerJoinedMsg (currentId : String) (players : List Player)
    (np : Player) : List Player :=
  if np.id == currentId then players
  else if players.any (fun p => p.id == np.id) then players
  else players ++ [{ np with targetX := some np.x, targetY := some np.y }]

/-!
Helper lemmas about the JavaScript map embedding and the broadcast fan-out.
-/

/-- Every message produced by `broadcast` is the broadcast message itself. -/
theorem mem_broadcast_msg {clients : Registry} {msg : ServerMessage}
    {ex : Option String} {r : String} {m : ServerMessage}
    (h : (r, m) ∈ broadcast clients msg ex) : m = msg := by
  simp only [broadcast, List.mem_map, List.mem_filter] at h
  obtain ⟨e, _, he⟩ := h
  exact (Prod.mk.injEq _ _ _ _ ▸ he).2.symm

/-- `broadcast` never delivers to the excluded connection. -/
theorem mem_broadcast_ne_exclude {clients : Registry} {msg : ServerMessage}
    {ex r : String} {m : ServerMessage}
    (h : (r, m) ∈ broadcast clients msg (some ex)) : r ≠ ex := by
  simp only [broadcast, List.mem_map, List.mem_filter, Bool.and_eq_true,
    Bool.not_eq_true'] at h
  obtain ⟨e, ⟨_, hcond, _⟩, he⟩ := h
  have h1 : e.1 = r := (Prod.mk.injEq _ _ _ _ ▸ he).1
  intro hr
  rw [h1, hr] at hcond
  simp at hcond

/-- If a key is present in a JavaScript map, `set` leaves the new binding
as an element of the association list. -/
theorem jsMapGet_mem_jsMapSet {α : Type} {m : List (String × α)} {k : String}
    {v : α} (h : jsMapGet m k = some v) (v' : α) : (k, v') ∈ jsMapSet m k v' := by
  simp only [jsMapGet, Option.map_eq_some'] at h
  obtain ⟨e, he, _⟩ := h
  have hmem : e ∈ m := List.mem_of_find?_eq_some he
  have hkey : (e.1 == k) = true := by
    have := List.find?_some he
    exact this
  have hany : m.any (fun e => e.1 == k) = true :=
    List.any_eq_true.mpr ⟨e, hmem, hkey⟩
  simp only [jsMapSet, hany, if_true]
  refine List.mem_map.mpr ⟨e, hmem, ?_⟩
  simp [hkey]

/-- C1: for every registry state (hence after any sequence of join and
leave events) and every `player_joined` from a connected sender, the
handler's output starts with exactly one `game_state` message, addressed
to the sender alone; no other send is a `game_state` or goes to the
sender; its participant list is exactly the set of players of connections
whose `playerData` is set at that instant, and it contains the joiner's
own payload. -/
theorem game_state_snapshot_exact (clients : Registry) (s : String)
    (c : ClientData) (p : PlayerData) (hs : jsMapGet clients s = some c) :
    ∃ rest,
      (handleMessage clients s (.player_joined p)).2
        = (s, ServerMessage.game_state
              (activePlayers (handleMessage clients s (.player_joined p)).1)) :: rest
      ∧ (∀ r m, (r, m) ∈ rest → r ≠ s ∧ ∀ ps, m ≠ ServerMessage.game_state ps)
      ∧ p ∈ activePlayers (handleMessage clients s (.player_joined p)).1
      ∧ ∀ q, q ∈ activePlayers (handleMessage clients s (.player_joined p)).1 ↔
          ∃ e ∈ (handleMessage clients s (.player_joined p)).1,
            e.2.playerData = some q := by
  have hred : handleMessage clients s (.player_joined p)
      = (jsMapSet clients s { c with playerData := some p },
         (s, .game_state (activePlayers
              (jsMapSet clients s { c with playerData := some p })))
           :: broadcast (jsMapSet clients s { c with playerData := some p })
                (.player_joined p) (some s)) := by
    simp [handleMessage, hs]
  rw [hred]
  refine ⟨_, rfl, ?_, ?_, ?_⟩
  · intro r m hm
    refine ⟨mem_broadcast_ne_exclude hm, ?_⟩
    intro ps
    have := mem_broadcast_msg hm
    simp [this]
  · have hmem := jsMapGet_mem_jsMapSet hs { c with playerData := some p }
    exact List.mem_filterMap.mpr ⟨_, hmem, rfl⟩
  · intro q
    simp [activePlayers, List.mem_filterMap]

/-- Witness for C1 at a concrete three-connection registry. -/
theorem game_state_snapshot_exact_witness :
    jsMapGet ([("a", ⟨true, some ⟨"a", "A", "red", .num 1, .num 2⟩⟩),
               ("b", ⟨true, some ⟨"b", "B", "blue", .num 3, .num 4⟩⟩),
               ("c", ⟨true, none⟩)] : Registry) "b"
        = some ⟨true, some ⟨"b", "B", "blue", .num 3, .num 4⟩⟩
    ∧ ∃ rest,
      (handleMessage [("a", ⟨true, some ⟨"a", "A", "red", .num 1, .num 2⟩⟩),
                      ("b", ⟨true, some ⟨"b", "B", "blue", .num 3, .num 4⟩⟩),
                      ("c", ⟨true, none⟩)] "b"
          (.player_joined ⟨"b", "B2", "green", .num 7, .num 8⟩)).2
        = ("b", ServerMessage.game_state
              (activePlayers (handleMessage
                  [("a", ⟨true, some ⟨"a", "A", "red", .num 1, .num 2⟩⟩),
                   ("b", ⟨true, some ⟨"b", "B", "blue", .num 3, .num 4⟩⟩),
                   ("c", ⟨true, none⟩)] "b"
                  (.player_joined ⟨"b", "B2", "green", .num 7, .num 8⟩)).1)) :: rest
      ∧ (∀ r m, (r, m) ∈ rest → r ≠ "b" ∧ ∀ ps, m ≠ ServerMessage.game_state ps)
      ∧ (⟨"b", "B2", "green", .num 7, .num 8⟩ : PlayerData)
          ∈ activePlayers (handleMessage
              [("a", ⟨true, some ⟨"a", "A", "red", .num 1, .num 2⟩⟩),
               ("b", ⟨true, some ⟨"b", "B", "blue", .num 3, .num 4⟩⟩),
               ("c", ⟨true, none⟩)] "b"
              (.player_joined ⟨"b", "B2", "green", .num 7, .num 8⟩)).1
      ∧ ∀ q, q ∈ activePlayers (handleMessage
              [("a", ⟨true, some ⟨"a", "A", "red", .num 1, .num 2⟩⟩),
               ("b", ⟨true, some ⟨"b", "B", "blue", .num 3, .num 4⟩⟩),
               ("c", ⟨true, none⟩)] "b"
              (.player_joined ⟨"b", "B2", "green", .num 7, .num 8⟩)).1 ↔
          ∃ e ∈ (handleMessage
              [("a", ⟨true, some ⟨"a", "A", "red", .num 1, .num 2⟩⟩),
               ("b", ⟨true, some ⟨"b", "B", "blue", .num 3, .num 4⟩⟩),
               ("c", ⟨true, none⟩)] "b"
              (.player_joined ⟨"b", "B2", "green", .num 7, .num 8⟩)).1,
            e.2.playerData = some q :=
  ⟨rfl, game_state_snapshot_exact _ "b" _ _ rfl⟩

/-- C2: for every registry state and every `position` message received
from a connection, no send produced by the handler is addressed to the
originating connection. -/
theorem position_no_echo (clients : Registry) (s pid : String) (x y : JsVal)
    (r : String) (m : ServerMessage)
    (hmem : (r, m) ∈ (handleMessage clients s (.position pid x y)).2) :
    r ≠ s := by
  simp only [handleMessage] at hmem
  split at hmem
  · simp at hmem
  · split at hmem
    · exact mem_broadcast_ne_exclude hmem
    · simp at hmem

/-- Witness for C2 at a concrete registry and position message. -/
theorem position_no_echo_witness :
    (("b", ServerMessage.position "a" (.num 9) (.num 9))
        ∈ (handleMessage [("a", ⟨true, some ⟨"a", "A", "red", .num 1, .num 2⟩⟩),
                          ("b", ⟨true, some ⟨"b", "B", "blue", .num 3, .num 4⟩⟩)]
            "a" (.position "a" (.num 9) (.num 9))).2)
    ∧ "b" ≠ "a" :=
  ⟨by decide,
   position_no_echo
     [("a", ⟨true, some ⟨"a", "A", "red", .num 1, .num 2⟩⟩),
      ("b", ⟨true, some ⟨"b", "B", "blue", .num 3, .num 4⟩⟩)]
     "a" "a" (.num 9) (.num 9) "b"
     (ServerMessage.position "a" (.num 9) (.num 9)) (by decide)⟩

/-- C8: a `position` message from a connection that is still AwaitingJoin
(its `playerData` is not yet set) is ignored: the registry is unchanged
and nothing is sent. -/
theorem position_awaiting_join_ignored (clients : Registry) (s : String)
    (c : ClientData) (pid : String) (x y : JsVal)
    (hs : jsMapGet clients s = some c) (hnone : c.playerData = none) :
    handleMessage clients s (.position pid x y) = (clients, []) := by
  simp [handleMessage, hs, hnone]

/-- Witness for C8: an open connection with no player data yet. -/
theorem position_awaiting_join_ignored_witness :
    jsMapGet ([("a", ⟨true, some ⟨"a", "A", "red", .num 1, .num 2⟩⟩),
               ("c", ⟨true, none⟩)] : Registry) "c" = some ⟨true, none⟩
    ∧ handleMessage [("a", ⟨true, some ⟨"a", "A", "red", .num 1, .num 2⟩⟩),
                     ("c", ⟨true, none⟩)] "c" (.position "c" (.num 5) (.num 5))
        = ([("a", ⟨true, some ⟨"a", "A", "red", .num 1, .num 2⟩⟩),
            ("c", ⟨true, none⟩)], []) :=
  ⟨rfl, position_awaiting_join_ignored _ "c" ⟨true, none⟩ "c" (.num 5) (.num 5) rfl rfl⟩

/-- A two-client registry in which both connections are Active and open,
used to exhibit the server's treatment of non-finite coordinates. -/
def nanRegistry : Registry :=
  [("a", ⟨true, some ⟨"a", "A", "red", .num 1, .num 2⟩⟩),
   ("b", ⟨true, some ⟨"b", "B", "blue", .num 3, .num 4⟩⟩)]

/-- C9 counterexample: a `position` payload whose coordinates are `NaN`
(non-finite) is not dropped.  `NaN` passes the `typeof === 'number'`
check of the validating handler variant, so the stored participant's
coordinates are overwritten with `NaN` and the message is broadcast to
the other open connection. -/
theorem position_nan_not_dropped :
    JsVal.isFinite .nan = false
    ∧ typeofNumber .nan = true
    ∧ (handleMessageV1 nanRegistry "a" (.position "a" .nan .nan)).2
        = [("b", ServerMessage.position "a" .nan .nan)]
    ∧ jsMapGet (handleMessageV1 nanRegistry "a" (.position "a" .nan .nan)).1 "a"
        = some ⟨true, some ⟨"a", "A", "red", .nan, .nan⟩⟩ := by
  refine ⟨rfl, rfl, ?_, ?_⟩ <;> decide

/-- C9 amended: the only coordinate validation the server ever applies is
the `typeof === 'number'` check of the older handler variant.  A payload
whose `x` or `y` is not of number type is dropped (registry unchanged,
nothing sent); a payload whose coordinates are of number type — finite or
not — updates the Active sender's stored coordinates and is broadcast to
the other open connections. -/
theorem position_typeof_validation (clients : Registry) (s pid : String)
    (x y : JsVal) :
    (typeofNumber x = false ∨ typeofNumber y = false →
      handleMessageV1 clients s (.position pid x y) = (clients, []))
    ∧ (∀ c pd, typeofNumber x = true → typeofNumber y = true →
        jsMapGet clients s = some c → c.playerData = some pd →
        handleMessageV1 clients s (.position pid x y)
          = (jsMapSet clients s { c with playerData := some { pd with x := x, y := y } },
             broadcast
               (jsMapSet clients s { c with playerData := some { pd with x := x, y := y } })
               (.position pid x y) (some s))) := by
  constructor
  · intro h
    have hcond : (typeofNumber x && typeofNumber y) = false := by
      rcases h with h | h <;> simp [h]
    simp [handleMessageV1, hcond]
  · intro c pd hx hy hget hpd
    simp [handleMessageV1, hx, hy, hget, hpd]

/-- Witness for C9's amended statement: a string-valued coordinate is
dropped, and a `NaN` coordinate from an Active sender is stored and
broadcast. -/
theorem position_typeof_validation_witness :
    handleMessageV1 nanRegistry "a" (.position "a" (.str "q") (.num 1))
        = (nanRegistry, [])
    ∧ handleMessageV1 nanRegistry "a" (.position "a" .nan .nan)
        = (jsMapSet nanRegistry "a"
             ⟨true, some ⟨"a", "A", "red", .nan, .nan⟩⟩,
           broadcast
             (jsMapSet nanRegistry "a" ⟨true, some ⟨"a", "A", "red", .nan, .nan⟩⟩)
             (.position "a" .nan .nan) (some "a")) :=
  ⟨(position_typeof_validation nanRegistry "a" "a" (.str "q") (.num 1)).1 (Or.inl rfl),
   (position_typeof_validation nanRegistry "a" "a" .nan .nan).2
     ⟨true, some ⟨"a", "A", "red", .num 1, .num 2⟩⟩ ⟨"a", "A", "red", .num 1, .num 2⟩
     rfl rfl rfl rfl⟩

/-- The `while` loop of the `onopen` handler drains the whole queue and
sends its contents in original FIFO order. -/
theorem flushQueue_eq (q : List ClientMessage) : flushQueue q = (q, []) := by
  induction q with
  | nil => rfl
  | cons m rest ih => simp [flushQueue, ih]

/-- C4 counterexample: in the maximal failure cascade of the current
client (every connection attempt fails), the scheduled delays are
1000·1 … 1000·5 and the only thing ever emitted is the generic
`disconnected` event, fired on each of the six closes.  No event is
emitted exactly once, so no permanent-disconnect condition is emitted
when the retry budget is exhausted — the controller gives up silently. -/
theorem reconnect_gives_up_silently :
    failureCascade ⟨0, false, [], []⟩
      = ([1000, 2000, 3000, 4000, 5000], List.replicate 6 WsEvent.disconnected)
    ∧ (failureCascade ⟨0, false, [], []⟩).2.count WsEvent.disconnected = 6
    ∧ (failureCascade ⟨0, false, [], []⟩).2.count WsEvent.connected = 0 := by
  refine ⟨?_, ?_, ?_⟩ <;> decide

/-- C4 amended: after `k` consecutive failures (1 ≤ k ≤ 5) the next retry
is scheduled with delay exactly `reconnectTimeout * k`; once the cap is
reached no further attempt is scheduled; and the controller gives up
silently — in the whole cascade nothing but the per-close `disconnected`
event is ever fired. -/
theorem linear_backoff_and_cap (k : ℕ) (h1 : 1 ≤ k)
    (h2 : k ≤ maxReconnectAttempts) :
    (∀ s : GameWebSocketState, s.reconnectAttempts = k - 1 →
        attemptReconnect s
          = ({ s with reconnectAttempts := k }, some (reconnectTimeout * k)))
    ∧ (∀ s : GameWebSocketState, maxReconnectAttempts ≤ s.reconnectAttempts →
        attemptReconnect s = (s, none))
    ∧ failureCascade ⟨0, false, [], []⟩
        = ((List.range maxReconnectAttempts).map
             (fun i => reconnectTimeout * (i + 1)),
           List.replicate (maxReconnectAttempts + 1) WsEvent.disconnected) := by
  refine ⟨?_, ?_, by decide⟩
  · intro s hs
    have hlt : s.reconnectAttempts < maxReconnectAttempts := by omega
    have hk : s.reconnectAttempts + 1 = k := by omega
    simp [attemptReconnect, hlt, hk]
  · intro s hs
    have hlt : ¬ s.reconnectAttempts < maxReconnectAttempts := by omega
    simp [attemptReconnect, hlt]

/-- Witness for C4's amended statement at k = 3 and at the cap. -/
theorem linear_backoff_and_cap_witness :
    attemptReconnect ⟨2, false, [], []⟩ = (⟨3, false, [], []⟩, some 3000)
    ∧ attemptReconnect ⟨5, false, [], []⟩ = (⟨5, false, [], []⟩, none) :=
  ⟨by
     have h := (linear_backoff_and_cap 3 (by decide) (by decide)).1
       ⟨2, false, [], []⟩ rfl
     simpa [reconnectTimeout] using h,
   (linear_backoff_and_cap 3 (by decide) (by decide)).2.1
     ⟨5, false, [], []⟩ (by decide)⟩

/-- A concrete local participant used in client-side witnesses. -/
def demoPlayer : Player := ⟨"p1", "Anna", 10, 20, "red", none, none⟩

/-- C5 counterexample: the `onopen` handler of the current client does not
reset the retry counter — opening from a state with three recorded
attempts leaves the counter at three, not zero. -/
theorem open_does_not_reset_attempts :
    (handleOpen demoPlayer ⟨3, true, [], []⟩).1.reconnectAttempts = 3
    ∧ (handleOpen demoPlayer ⟨3, true, [], []⟩).1.reconnectAttempts ≠ 0 := by
  decide

/-- C5 amended: on open the controller emits a `player_joined` message
carrying the full local Participant and then flushes every queued message
in original FIFO order, leaving the queue empty — but the retry counter is
left unchanged rather than reset to zero. -/
theorem open_flushes_fifo_and_joins (player : Player) (s : GameWebSocketState) :
    (handleOpen player s).2.1 = ClientMessage.player_joined player :: s.messageQueue
    ∧ (handleOpen player s).1.messageQueue = []
    ∧ (handleOpen player s).1.reconnectAttempts = s.reconnectAttempts
    ∧ (handleOpen player s).2.2 = [WsEvent.connected] := by
  simp [handleOpen, flushQueue_eq]

/-- Setting a key whose head entry does not match commutes with `cons`. -/
theorem jsMapSet_cons_ne {α : Type} (a : String × α) (t : List (String × α))
    (k : String) (v : α) (ha : ¬ a.1 = k) :
    jsMapSet (a :: t) k v = a :: jsMapSet t k v := by
  have hbeq : (a.1 == k) = false := by simp [ha]
  by_cases hany : t.any (fun e => e.1 == k) = true
  · simp only [jsMapSet, List.any_cons, hbeq, hany, Bool.false_or, if_true,
      List.map_cons]
    rw [if_neg (by simp [hbeq])]
  · simp [jsMapSet, List.any_cons, hbeq, hany, Bool.false_or]

/-- Setting the key of the head entry overwrites it in place when no tail
entry shares the key. -/
theorem jsMapSet_cons_eq {α : Type} (a : String × α) (t : List (String × α))
    (k : String) (v : α) (ha : a.1 = k) (ht : ∀ e ∈ t, ¬ e.1 = k) :
    jsMapSet (a :: t) k v = (k, v) :: t := by
  have hbeq : (a.1 == k) = true := by simp [ha]
  have hany : (a :: t).any (fun e => e.1 == k) = true := by
    simp [List.any_cons, hbeq]
  simp only [jsMapSet, hany, if_true, List.map_cons, hbeq]
  refine congrArg₂ _ rfl ?_
  calc t.map (fun e => if e.1 == k then (k, v) else e)
      = t.map id := List.map_congr_left (fun e he => by simp [ht e he])
    _ = t := List.map_id t

/-- `jsMapSet` preserves distinctness of the keys. -/
theorem jsMapSet_keys_nodup {α : Type} (m : List (String × α)) (k : String)
    (v : α) (h : (m.map Prod.fst).Nodup) :
    ((jsMapSet m k v).map Prod.fst).Nodup := by
  by_cases hany : m.any (fun e => e.1 == k) = true
  · have hkeys : (jsMapSet m k v).map Prod.fst = m.map Prod.fst := by
      simp only [jsMapSet, hany, if_true, List.map_map]
      refine List.map_congr_left (fun e he => ?_)
      by_cases hk : e.1 = k
      · simp [hk]
      · simp [Function.comp, hk]
    rw [hkeys]; exact h
  · have hset : jsMapSet m k v = m ++ [(k, v)] := by
      simp [jsMapSet, hany]
    have hnot : ∀ e ∈ m, ¬ e.1 = k := by
      intro e he hek
      exact hany (List.any_eq_true.mpr ⟨e, he, by simp [hek]⟩)
    rw [hset, List.map_append, List.nodup_append]
    refine ⟨h, by simp, ?_⟩
    intro a ha hb
    simp only [List.map_cons, List.map_nil, List.mem_singleton] at hb
    subst hb
    rcases List.mem_map.mp ha with ⟨e, he, hek⟩
    exact hnot e he hek

/-- After a `set`, the entries carrying the written key are exactly the
single new binding (given distinct keys). -/
theorem jsMapSet_filter_key {α : Type} (m : List (String × α)) (k : String)
    (v : α) (h : (m.map Prod.fst).Nodup) :
    (jsMapSet m k v).filter (fun e => e.1 == k) = [(k, v)] := by
  induction m with
  | nil => simp [jsMapSet]
  | cons a t ih =>
    have htail : (t.map Prod.fst).Nodup := (List.nodup_cons.mp h).2
    by_cases ha : a.1 = k
    · have hnotmem : a.1 ∉ t.map Prod.fst := (List.nodup_cons.mp h).1
      have ht : ∀ e ∈ t, ¬ e.1 = k := by
        intro e he hek
        exact hnotmem (ha ▸ hek ▸ List.mem_map.mpr ⟨e, he, rfl⟩)
      rw [jsMapSet_cons_eq a t k v ha ht]
      have hfilt : t.filter (fun e => e.1 == k) = [] := by
        rw [List.filter_eq_nil_iff]
        intro e he
        simp [ht e he]
      simp [List.filter_cons, hfilt]
    · rw [jsMapSet_cons_ne a t k v ha]
      have hbeq : (a.1 == k) = false := by simp [ha]
      simp [List.filter_cons, hbeq, ih htail]

/-- C3: latest-write-wins throttling.  Writing two positions for the same
id into the single-slot buffer leaves only the second; the next flush tick
on an open socket sends exactly one `position` message for that id,
carrying the latest coordinates, and clears the buffer; a tick on an empty
buffer sends nothing. -/
theorem latest_write_wins (buffer : List (String × (ℚ × ℚ))) (id : String)
    (x1 y1 x2 y2 : ℚ) (hnodup : (buffer.map Prod.fst).Nodup) :
    ((positionUpdateTick true (sendPosition (sendPosition buffer id x1 y1) id x2 y2)).1.filter
        (isPositionFor id) = [ClientMessage.position id x2 y2])
    ∧ (positionUpdateTick true (sendPosition (sendPosition buffer id x1 y1) id x2 y2)).2 = []
    ∧ positionUpdateTick true [] = ([], []) := by
  set b2 := sendPosition (sendPosition buffer id x1 y1) id x2 y2 with hb2
  have hnodup1 : ((sendPosition buffer id x1 y1).map Prod.fst).Nodup :=
    jsMapSet_keys_nodup _ _ _ hnodup
  have hfilter : b2.filter (fun e => e.1 == id) = [(id, (x2, y2))] :=
    jsMapSet_filter_key _ _ _ hnodup1
  have hne : b2 ≠ [] := by
    intro hemp
    rw [hemp] at hfilter
    simp at hfilter
  have hlen : 0 < b2.length := List.length_pos.mpr hne
  have htick : positionUpdateTick true b2
      = (b2.map (fun e => ClientMessage.position e.1 e.2.1 e.2.2), []) := by
    simp [positionUpdateTick, hlen]
  refine ⟨?_, ?_, rfl⟩
  · rw [htick]
    have hcomp :
        (b2.map (fun e => ClientMessage.position e.1 e.2.1 e.2.2)).filter (isPositionFor id)
          = (b2.filter (fun e => e.1 == id)).map
              (fun e => ClientMessage.position e.1 e.2.1 e.2.2) := by
      rw [List.filter_map]
      rfl
    rw [hcomp, hfilter]
    rfl
  · rw [htick]

/-- Witness for C3 starting from the empty buffer. -/
theorem latest_write_wins_witness :
    ((([] : List (String × (ℚ × ℚ))).map Prod.fst).Nodup)
    ∧ (((positionUpdateTick true (sendPosition (sendPosition [] "a" 1 2) "a" 3 4)).1.filter
          (isPositionFor "a") = [ClientMessage.position "a" 3 4])
       ∧ (positionUpdateTick true (sendPosition (sendPosition [] "a" 1 2) "a" 3 4)).2 = []
       ∧ positionUpdateTick true [] = ([], [])) :=
  ⟨by decide, latest_write_wins [] "a" 1 2 3 4 (by decide)⟩

/-- One axis of the movement step stays inside `[0, bound]`: the
decreasing key clamps at `0`, the increasing key clamps at the bound, and
they are applied in source order. -/
theorem axis_step_bounds (bound s c : ℚ) (f1 f2 : Bool)
    (hs : 0 ≤ s) (h0 : 0 ≤ c) (h1 : c ≤ bound) :
    0 ≤ (if f2 then min bound ((if f1 then max 0 (c - s) else c) + s)
         else (if f1 then max 0 (c - s) else c))
    ∧ (if f2 then min bound ((if f1 then max 0 (c - s) else c) + s)
       else (if f1 then max 0 (c - s) else c)) ≤ bound := by
  have hb : 0 ≤ bound := le_trans h0 h1
  have hstep1 : 0 ≤ (if f1 then max 0 (c - s) else c)
      ∧ (if f1 then max 0 (c - s) else c) ≤ bound := by
    cases f1 with
    | false => exact ⟨h0, h1⟩
    | true =>
      refine ⟨le_max_left 0 _, max_le hb ?_⟩
      linarith
  cases f2 with
  | false => exact hstep1
  | true =>
    refine ⟨le_min hb ?_, min_le_left _ _⟩
    linarith [hstep1.1]

/-- C7: for every configuration with a nonnegative speed, every prior
position inside the playable bounds and every combination of movement
flags, the movement step of `handlePlayerMove` / the local `gameLoop`
branch yields a position inside `[0, fieldWidth - playerSize] ×
[0, fieldHeight - playerSize]`. -/
theorem movement_stays_in_bounds (cfg : GameConfig) (mv : Movement) (x y : ℚ)
    (hs : 0 ≤ cfg.moveSpeed)
    (hx0 : 0 ≤ x) (hx1 : x ≤ cfg.fieldWidth - cfg.playerSize)
    (hy0 : 0 ≤ y) (hy1 : y ≤ cfg.fieldHeight - cfg.playerSize) :
    0 ≤ (applyMovement cfg mv x y).1
    ∧ (applyMovement cfg mv x y).1 ≤ cfg.fieldWidth - cfg.playerSize
    ∧ 0 ≤ (applyMovement cfg mv x y).2
    ∧ (applyMovement cfg mv x y).2 ≤ cfg.fieldHeight - cfg.playerSize := by
  have hxax := axis_step_bounds (cfg.fieldWidth - cfg.playerSize) cfg.moveSpeed x
    mv.left mv.right hs hx0 hx1
  have hyax := axis_step_bounds (cfg.fieldHeight - cfg.playerSize) cfg.moveSpeed y
    mv.up mv.down hs hy0 hy1
  exact ⟨hxax.1, hxax.2, hyax.1, hyax.2⟩

/-- Witness for C7 with the repository's `GAME_CONFIG`
(fieldWidth 200, fieldHeight 150, playerSize 1, moveSpeed 0.2), a corner
position and all four keys pressed. -/
theorem movement_stays_in_bounds_witness :
    0 ≤ (applyMovement ⟨200, 150, 1, 0.2⟩ ⟨true, true, true, true⟩ 199 0).1
    ∧ (applyMovement ⟨200, 150, 1, 0.2⟩ ⟨true, true, true, true⟩ 199 0).1 ≤ 200 - 1
    ∧ 0 ≤ (applyMovement ⟨200, 150, 1, 0.2⟩ ⟨true, true, true, true⟩ 199 0).2
    ∧ (applyMovement ⟨200, 150, 1, 0.2⟩ ⟨true, true, true, true⟩ 199 0).2 ≤ 150 - 1 := by
  have h := movement_stays_in_bounds ⟨200, 150, 1, 0.2⟩ ⟨true, true, true, true⟩
    199 0 (by norm_num) (by norm_num) (by norm_num) (by norm_num) (by norm_num)
  simpa using h

/-- C10: duplicate-join idempotence of the client mirror.  A
`player_joined` whose id is the local player's or already occurs in the
mirror leaves the list unchanged, and the handler preserves distinctness
of the mirror ids. -/
theorem player_joined_idempotent (cid : String) (players : List Player)
    (np : Player) :
    (np.id = cid ∨ (players.any fun p => p.id == np.id) = true →
        handlePlayerJoinedMsg cid players np = players)
    ∧ ((players.map Player.id).Nodup →
        ((handlePlayerJoinedMsg cid players np).map Player.id).Nodup) := by
  constructor
  · intro h
    rcases h with h | h
    · simp [handlePlayerJoinedMsg, h]
    · by_cases hc : np.id = cid
      · simp [handlePlayerJoinedMsg, hc]
      · simp [handlePlayerJoinedMsg, hc, h]
  · intro hnodup
    by_cases hc : np.id = cid
    · simpa [handlePlayerJoinedMsg, hc] using hnodup
    · by_cases hany : (players.any fun p => p.id == np.id) = true
      · simpa [handlePlayerJoinedMsg, hc, hany] using hnodup
      · have hset : handlePlayerJoinedMsg cid players np
            = players ++ [{ np with targetX := some np.x, targetY := some np.y }] := by
          simp [handlePlayerJoinedMsg, hc, hany]
        have hnot : np.id ∉ players.map Player.id := by
          intro hmem
          rcases List.mem_map.mp hmem with ⟨p, hp, hpid⟩
          exact hany (List.any_eq_true.mpr ⟨p, hp, by simp [hpid]⟩)
        rw [hset, List.map_append, List.nodup_append]
        refine ⟨hnodup, by simp, ?_⟩
        intro a ha hb
        simp only [List.map_cons, List.map_nil, List.mem_singleton] at hb
        subst hb
        exact hnot ha

/-- Witness for C10: a duplicate join for an id already in the mirror is a
no-op. -/
theorem player_joined_idempotent_witness :
    handlePlayerJoinedMsg "me" [⟨"x", "X", 0, 0, "c", none, none⟩]
        ⟨"x", "X2", 5, 5, "d", none, none⟩
      = [⟨"x", "X", 0, 0, "c", none, none⟩] :=
  (player_joined_idempotent "me" [⟨"x", "X", 0, 0, "c", none, none⟩]
      ⟨"x", "X2", 5, 5, "d", none, none⟩).1 (Or.inr (by decide))

/-- When both axes are within the stopping threshold, the interpolation
step snaps the rendered position exactly onto the target. -/
theorem interpolateRemote_snap (p : Player) (tx ty : ℚ)
    (hx : p.targetX = some tx) (hy : p.targetY = some ty)
    (h1 : |p.x - tx| < 0.1) (h2 : |p.y - ty| < 0.1) :
    interpolateRemote p = { p with x := tx, y := ty } := by
  by_cases hne : p.x ≠ tx ∨ p.y ≠ ty
  · simp only [interpolateRemote, hx, hy, Option.getD_some,
      if_pos (And.intro h1 h2), if_pos hne]
  · simp only [interpolateRemote, hx, hy, Option.getD_some,
      if_pos (And.intro h1 h2), if_neg hne]
    push_neg at hne
    obtain ⟨e1, e2⟩ := hne
    cases p
    simp_all

/-- Outside the stopping threshold, the interpolation step lerps both
axes toward the target. -/
theorem interpolateRemote_lerp (p : Player) (tx ty : ℚ)
    (hx : p.targetX = some tx) (hy : p.targetY = some ty)
    (h : ¬ (|p.x - tx| < 0.1 ∧ |p.y - ty| < 0.1)) :
    interpolateRemote p
      = { p with x := lerp p.x tx LERP_FACTOR, y := lerp p.y ty LERP_FACTOR } := by
  simp only [interpolateRemote, hx, hy, Option.getD_some, if_neg h]

/-- The interpolation step never changes the interpolation targets. -/
theorem interpolateRemote_targets (p : Player) :
    (interpolateRemote p).targetX = p.targetX
    ∧ (interpolateRemote p).targetY = p.targetY := by
  simp only [interpolateRemote]
  split
  · split <;> simp
  · simp

/-- The lerp step contracts the per-axis distance to the target by the
exact factor 4/5. -/
theorem lerp_sub (a b : ℚ) : lerp a b LERP_FACTOR - b = (4/5) * (a - b) := by
  have hfac : LERP_FACTOR = 1/5 := by norm_num [LERP_FACTOR]
  rw [lerp, hfac]
  ring

/-- A player whose rendered position already equals its target is a fixed
point of the interpolation step. -/
theorem interpolateRemote_fixed (q : Player) (tx ty : ℚ)
    (hx : q.targetX = some tx) (hy : q.targetY = some ty)
    (ha : q.x = tx) (hb : q.y = ty) : interpolateRemote q = q := by
  have hz1 : |q.x - tx| < 0.1 := by rw [ha]; simp; norm_num
  have hz2 : |q.y - ty| < 0.1 := by rw [hb]; simp; norm_num
  rw [interpolateRemote_snap q tx ty hx hy hz1 hz2]
  cases q
  simp_all

/-- Along the iteration of the interpolation step, the targets stay fixed
and the rendered position either has reached the target or lies at the
exact fraction `(4/5)^k` of the original offset on each axis. -/
theorem interpolateRemote_iterate (tx ty : ℚ) (p : Player)
    (hx : p.targetX = some tx) (hy : p.targetY = some ty) : ∀ k : ℕ,
    ((interpolateRemote^[k] p).targetX = some tx
     ∧ (interpolateRemote^[k] p).targetY = some ty)
    ∧ (((interpolateRemote^[k] p).x = tx ∧ (interpolateRemote^[k] p).y = ty)
       ∨ ((interpolateRemote^[k] p).x - tx = (4/5) ^ k * (p.x - tx)
          ∧ (interpolateRemote^[k] p).y - ty = (4/5) ^ k * (p.y - ty))) := by
  intro k
  induction k with
  | zero =>
    refine ⟨⟨by simpa using hx, by simpa using hy⟩, Or.inr ⟨?_, ?_⟩⟩ <;> simp
  | succ k ih =>
    obtain ⟨⟨hqx, hqy⟩, hcase⟩ := ih
    set q := interpolateRemote^[k] p with hq
    have hstep : interpolateRemote^[k + 1] p = interpolateRemote q := by
      rw [Function.iterate_succ_apply']
    have htg := interpolateRemote_targets q
    refine ⟨⟨by rw [hstep, htg.1]; exact hqx, by rw [hstep, htg.2]; exact hqy⟩, ?_⟩
    rcases hcase with ⟨ha, hb⟩ | ⟨ha, hb⟩
    · left
      have hfix := interpolateRemote_fixed q tx ty hqx hqy ha hb
      rw [hstep, hfix]
      exact ⟨ha, hb⟩
    · by_cases hsmall : |q.x - tx| < 0.1 ∧ |q.y - ty| < 0.1
      · left
        rw [hstep, interpolateRemote_snap q tx ty hqx hqy hsmall.1 hsmall.2]
        exact ⟨rfl, rfl⟩
      · right
        rw [hstep, interpolateRemote_lerp q tx ty hqx hqy hsmall]
        constructor
        · show lerp q.x tx LERP_FACTOR - tx = (4/5) ^ (k + 1) * (p.x - tx)
          rw [lerp_sub, ha]
          ring
        · show lerp q.y ty LERP_FACTOR - ty = (4/5) ^ (k + 1) * (p.y - ty)
          rw [lerp_sub, hb]
          ring

/-- For any offset there is a point after which the geometric factor
`(4/5)^m` shrinks it below the stopping threshold. -/
theorem exists_pow_small (a : ℚ) :
    ∃ n : ℕ, ∀ m : ℕ, n ≤ m → (4/5 : ℚ) ^ m * |a| < 0.1 := by
  obtain ⟨n, hn⟩ := exists_pow_lt_of_lt_one
    (x := (0.1 : ℚ) / (|a| + 1)) (y := (4/5 : ℚ)) (by positivity) (by norm_num)
  refine ⟨n, fun m hm => ?_⟩
  have habs : (0 : ℚ) ≤ |a| := abs_nonneg a
  have hpownn : (0 : ℚ) ≤ (4/5 : ℚ) ^ m := by positivity
  have hpowm : (4/5 : ℚ) ^ m ≤ (4/5 : ℚ) ^ n :=
    pow_le_pow_of_le_one (by norm_num) (by norm_num) hm
  have h1 : (4/5 : ℚ) ^ m * |a| ≤ (4/5 : ℚ) ^ n * (|a| + 1) := by
    have := mul_le_mul_of_nonneg_right hpowm habs
    nlinarith [pow_nonneg (by norm_num : (0:ℚ) ≤ 4/5) n]
  have h2 : (4/5 : ℚ) ^ n * (|a| + 1) < ((0.1 : ℚ) / (|a| + 1)) * (|a| + 1) := by
    have hpos : (0 : ℚ) < |a| + 1 := by positivity
    exact mul_lt_mul_of_pos_right hn hpos
  have h3 : ((0.1 : ℚ) / (|a| + 1)) * (|a| + 1) = 0.1 := by
    field_simp
  linarith

/-- C6: with a fixed target, one interpolation step strictly decreases the
squared distance to the target whenever the position differs from it,
never overshoots on either axis, and the iteration reaches the target
exactly after finitely many steps and stays there. -/
theorem interpolation_converges (tx ty : ℚ) (p : Player)
    (hx : p.targetX = some tx) (hy : p.targetY = some ty) :
    ((p.x, p.y) ≠ (tx, ty) →
        distSqToTarget tx ty (interpolateRemote p) < distSqToTarget tx ty p)
    ∧ (|(interpolateRemote p).x - tx| ≤ |p.x - tx|
       ∧ |(interpolateRemote p).y - ty| ≤ |p.y - ty|
       ∧ 0 ≤ ((interpolateRemote p).x - tx) * (p.x - tx)
       ∧ 0 ≤ ((interpolateRemote p).y - ty) * (p.y - ty))
    ∧ ∃ n : ℕ, ∀ m : ℕ, n ≤ m →
        (interpolateRemote^[m] p).x = tx ∧ (interpolateRemote^[m] p).y = ty := by
  refine ⟨?_, ?_, ?_⟩
  · intro hne
    have hne' : p.x ≠ tx ∨ p.y ≠ ty := by
      by_contra hcon
      push_neg at hcon
      exact hne (by simp [hcon.1, hcon.2])
    have hold : 0 < distSqToTarget tx ty p := by
      rcases hne' with h | h
      · have h1 : 0 < |p.x - tx| := abs_pos.mpr (sub_ne_zero.mpr h)
        have h2 : 0 < (p.x - tx) ^ 2 := by rw [← sq_abs]; positivity
        have h3 : 0 ≤ (p.y - ty) ^ 2 := sq_nonneg _
        unfold distSqToTarget
        linarith
      · have h1 : 0 < |p.y - ty| := abs_pos.mpr (sub_ne_zero.mpr h)
        have h2 : 0 < (p.y - ty) ^ 2 := by rw [← sq_abs]; positivity
        have h3 : 0 ≤ (p.x - tx) ^ 2 := sq_nonneg _
        unfold distSqToTarget
        linarith
    by_cases hsmall : |p.x - tx| < 0.1 ∧ |p.y - ty| < 0.1
    · rw [interpolateRemote_snap p tx ty hx hy hsmall.1 hsmall.2]
      unfold distSqToTarget at hold ⊢
      simp only []
      nlinarith
    · rw [interpolateRemote_lerp p tx ty hx hy hsmall]
      unfold distSqToTarget at hold ⊢
      have e1 : lerp p.x tx LERP_FACTOR - tx = (4/5) * (p.x - tx) := lerp_sub _ _
      have e2 : lerp p.y ty LERP_FACTOR - ty = (4/5) * (p.y - ty) := lerp_sub _ _
      simp only []
      rw [e1, e2]
      nlinarith
  · by_cases hsmall : |p.x - tx| < 0.1 ∧ |p.y - ty| < 0.1
    · rw [interpolateRemote_snap p tx ty hx hy hsmall.1 hsmall.2]
      simp [abs_nonneg]
    · rw [interpolateRemote_lerp p tx ty hx hy hsmall]
      have e1 : lerp p.x tx LERP_FACTOR - tx = (4/5) * (p.x - tx) := lerp_sub _ _
      have e2 : lerp p.y ty LERP_FACTOR - ty = (4/5) * (p.y - ty) := lerp_sub _ _
      simp only []
      rw [e1, e2]
      refine ⟨?_, ?_, ?_, ?_⟩
      · rw [abs_mul]
        have : |(4/5 : ℚ)| = 4/5 := by norm_num
        rw [this]
        nlinarith [abs_nonneg (p.x - tx)]
      · rw [abs_mul]
        have : |(4/5 : ℚ)| = 4/5 := by norm_num
        rw [this]
        nlinarith [abs_nonneg (p.y - ty)]
      · nlinarith [sq_nonneg (p.x - tx)]
      · nlinarith [sq_nonneg (p.y - ty)]
  · obtain ⟨n1, h1⟩ := exists_pow_small (p.x - tx)
    obtain ⟨n2, h2⟩ := exists_pow_small (p.y - ty)
    set N := max n1 n2 with hN
    have hinv := interpolateRemote_iterate tx ty p hx hy
    have hreach : (interpolateRemote^[N + 1] p).x = tx
        ∧ (interpolateRemote^[N + 1] p).y = ty := by
      obtain ⟨⟨hqx, hqy⟩, hcase⟩ := hinv N
      have hstep : interpolateRemote^[N + 1] p
          = interpolateRemote (interpolateRemote^[N] p) := by
        rw [Function.iterate_succ_apply']
      rcases hcase with ⟨ha, hb⟩ | ⟨ha, hb⟩
      · rw [hstep, interpolateRemote_fixed _ tx ty hqx hqy ha hb]
        exact ⟨ha, hb⟩
      · have hsx : |(interpolateRemote^[N] p).x - tx| < 0.1 := by
          rw [ha, abs_mul, abs_pow]
          have : |(4/5 : ℚ)| = 4/5 := by norm_num
          rw [this]
          exact h1 N (le_max_left n1 n2)
        have hsy : |(interpolateRemote^[N] p).y - ty| < 0.1 := by
          rw [hb, abs_mul, abs_pow]
          have : |(4/5 : ℚ)| = 4/5 := by norm_num
          rw [this]
          exact h2 N (le_max_right n1 n2)
        rw [hstep, interpolateRemote_snap _ tx ty hqx hqy hsx hsy]
        exact ⟨rfl, rfl⟩
    refine ⟨N + 1, ?_⟩
    intro m hm
    induction m, hm using Nat.le_induction with
    | base => exact hreach
    | succ m hm ih =>
      have htg := (hinv m).1
      have hstep : interpolateRemote^[m + 1] p
          = interpolateRemote (interpolateRemote^[m] p) := by
        rw [Function.iterate_succ_apply']
      rw [hstep, interpolateRemote_fixed _ tx ty htg.1 htg.2 ih.1 ih.2]
      exact ih

/-- Witness for C6 at a concrete remote player one unit away from its
target on each axis. -/
theorem interpolation_converges_witness :
    distSqToTarget 0 0 (interpolateRemote ⟨"r", "R", 1, 1, "red", some 0, some 0⟩)
      < distSqToTarget 0 0 ⟨"r", "R", 1, 1, "red", some 0, some 0⟩ :=
  (interpolation_converges 0 0 ⟨"r", "R", 1, 1, "red", some 0, some 0⟩ rfl rfl).1
    (by decide)
